import Mathlib

/- Shallow embedding of the room-contract repository
   (src/contract/src/lib.rs, src/contract/src/account.rs, src/contract/src/enumerable.rs).

   NEAR collections (`LookupMap`, `UnorderedMap`, `UnorderedSet`) are modelled as
   association lists / lists; a Rust panic is modelled as `Except.error` carrying both
   the error and the contract state at the moment of the panic, so that the write
   sequence of each entry point is visible (the contract itself contains no rollback
   logic; any rollback is performed by the host environment, outside this repository).
   Machine integers (u64 `StorageUsage`, u128 `Balance`) are modelled as `Nat`; no
   operation in the claims depends on wraparound. -/

deriving instance DecidableEq for Except

namespace RoomContract

abbrev AccountId := String
abbrev AppName := String
abbrev RoomId := Nat
abbrev Balance := Nat
abbrev StorageUsage := Nat

/-- Mirrors `struct Room` in src/contract/src/lib.rs. -/
structure Room where
  room_id : RoomId
  name : String
  owner_id : AccountId
  players : List AccountId
  banned_players : List AccountId
  player_limit : Nat
  is_hidden : Bool
  is_closed : Bool
  extra : Option String
deriving DecidableEq, Repr

/-- Mirrors `struct RoomConfig` in src/contract/src/lib.rs. -/
structure RoomConfig where
  app_name : String
  name : String
  is_hidden : Bool
  player_limit : Nat
  extra : Option String
deriving DecidableEq, Repr

/-- Modelled from the spec: `storage_tracker.rs` is declared (`mod storage_tracker;`)
but absent from src/; spec section 4.1 describes the tracker as a pair of byte
counters accumulated during a bracket. Only the two counter fields are needed:
they are exactly the fields `internal_set_account` in src/contract/src/account.rs
reads and resets. -/
structure StorageTracker where
  bytes_added : StorageUsage
  bytes_released : StorageUsage
deriving DecidableEq, Repr

/-- Mirrors `struct Account` in src/contract/src/account.rs. -/
structure Account where
  storage_balance : Balance
  used_bytes : StorageUsage
  storage_tracker : StorageTracker
deriving DecidableEq, Repr

/-- Association list standing in for NEAR `LookupMap` / `UnorderedMap`. -/
abbrev AList (k v : Type) := List (k × v)

def alGet [DecidableEq k] : AList k v → k → Option v
  | [], _ => none
  | p :: rest, key => if p.1 = key then some p.2 else alGet rest key

def alInsert [DecidableEq k] : AList k v → k → v → AList k v
  | [], key, val => [(key, val)]
  | p :: rest, key, val => if p.1 = key then (key, val) :: rest else p :: alInsert rest key val

def alRemove [DecidableEq k] : AList k v → k → AList k v
  | [], _ => []
  | p :: rest, key => if p.1 = key then alRemove rest key else p :: alRemove rest key

/-- `UnorderedSet::insert`: append if absent (insertion order preserved). -/
def setInsert (s : List RoomId) (x : RoomId) : List RoomId :=
  if x ∈ s then s else s ++ [x]

/-- Mirrors `struct Contract` in src/contract/src/lib.rs. -/
structure Contract where
  rooms : AList RoomId Room
  accounts : AList AccountId Account
  available_rooms_per_app : AList AppName (List RoomId)
  rooms_per_app_account : AList AppName (AList AccountId (Option RoomId))
  storage_deposits : AList AccountId Balance
  next_room_id : Nat
deriving DecidableEq, Repr

/-- `Contract::default()`. -/
def initialContract : Contract :=
  { rooms := [], accounts := [], available_rooms_per_app := [],
    rooms_per_app_account := [], storage_deposits := [], next_room_id := 0 }

/-- The user-facing panics of the contract, one constructor per panic site. -/
inductive CallError
  | roomIdNotFound          -- "Room id not found"
  | roomAlreadyClosed       -- "The room is already closed"
  | playerLimitExceeded     -- "Player limit exceeded"
  | alreadyJoined           -- "The player is already joined"
  | playerBanned            -- "Player is banned"
  | appNotFound             -- "App not found" / "App name not found"
  | accountAlreadyInRoom    -- "Account is already in the room"
  | noAvailableRooms        -- "There are currently no available rooms"
  | availableRoomsNotFound  -- "Available rooms not found in the app"
  | roomNotFoundInApp       -- "Room not found in the app"
  | notAuthorized           -- "Only the owner can open/close/remove/kick ..."
  | notEnoughStorageBalance -- "Not enough storage balance"
  | accountingBug           -- "Internal storage accounting bug"
  | insufficientDeposit     -- "The attached deposit is less than the minimum storage balance"
  | accountNotFound         -- "Account not found"
  | appRoomsNotFound        -- "App rooms not found"
  | randomRoomIdNotFound    -- "Random room id not found"
  | roomNotFound            -- "Room not found" / "" in get_app_account_room
deriving DecidableEq, Repr

/-- Result of a mutating entry point: a panic (`error`) carries the state at the
panic site, so the writes performed before the panic are observable. -/
abbrev CallResult := Except (CallError × Contract) Contract

def fail (e : CallError) (s : Contract) : CallResult := .error (e, s)

/- ------------------- account.rs ------------------- -/

def MIN_STORAGE_BYTES : Nat := 2000

/-- `env::STORAGE_PRICE_PER_BYTE` (= `env::storage_byte_cost()`) on NEAR. -/
def STORAGE_PRICE_PER_BYTE : Nat := 10 ^ 19

def MIN_STORAGE_BALANCE : Nat := MIN_STORAGE_BYTES * STORAGE_PRICE_PER_BYTE

/-- `Account::new()`. -/
def Account.new : Account :=
  { storage_balance := 0, used_bytes := 0, storage_tracker := ⟨0, 0⟩ }

/-- `Account::assert_storage_covered` as the boolean it asserts. -/
def assert_storage_covered (a : Account) : Bool :=
  a.used_bytes * STORAGE_PRICE_PER_BYTE ≤ a.storage_balance

/-- `Contract::internal_set_account`: reconcile the storage tracker into
`used_bytes`, reset the tracker, and store the account. The two `assert!`s
are the `error` branches. -/
def internal_set_account (accounts : AList AccountId Account) (account_id : AccountId)
    (account : Account) : Except CallError (AList AccountId Account) :=
  let t := account.storage_tracker
  if t.bytes_released < t.bytes_added then
    let acc : Account :=
      { account with used_bytes := account.used_bytes + (t.bytes_added - t.bytes_released) }
    if assert_storage_covered acc then
      .ok (alInsert accounts account_id { acc with storage_tracker := ⟨0, 0⟩ })
    else
      .error .notEnoughStorageBalance
  else if t.bytes_added < t.bytes_released then
    if t.bytes_released - t.bytes_added ≤ account.used_bytes then
      .ok (alInsert accounts account_id
        { account with used_bytes := account.used_bytes - (t.bytes_released - t.bytes_added),
                       storage_tracker := ⟨0, 0⟩ })
    else
      .error .accountingBug
  else
    .ok (alInsert accounts account_id { account with storage_tracker := ⟨0, 0⟩ })

/-- `Contract::internal_create_account` with `registration_only = false`
(the only value the repository passes); the refund `Promise` branch is
therefore dead code and not modelled. -/
def internal_create_account (s : Contract) (account_id : AccountId)
    (storage_deposit : Balance) : Except CallError Contract :=
  if storage_deposit < MIN_STORAGE_BALANCE then
    .error .insufficientDeposit
  else
    match internal_set_account s.accounts account_id
        { Account.new with storage_balance := storage_deposit } with
    | .error e => .error e
    | .ok accounts => .ok { s with accounts := accounts }

/-- `Contract::internal_unwrap_account_or_create`. Account-id validity
(`env::is_valid_account_id`) is a host-side syntax check and is not modelled. -/
def internal_unwrap_account_or_create (s : Contract) (account_id : AccountId)
    (storage_deposit : Balance) : Except CallError (Contract × Account) :=
  match alGet s.accounts account_id with
  | some a => .ok (s, { a with storage_balance := a.storage_balance + storage_deposit })
  | none =>
    match internal_create_account s account_id storage_deposit with
    | .error e => .error e
    | .ok s1 =>
      match alGet s1.accounts account_id with
      | none => .error .accountNotFound
      | some a => .ok (s1, a)

/- ------------------- lib.rs ------------------- -/

/-- `Contract::save_new_room`. -/
def save_new_room (s : Contract) (new_room : Room) (app_name : AppName)
    (account_id : AccountId) : Contract :=
  let rpa := (alGet s.rooms_per_app_account app_name).getD []
  let rpa1 := alInsert rpa account_id (some new_room.room_id)
  let s1 := { s with rooms_per_app_account := alInsert s.rooms_per_app_account app_name rpa1 }
  let avail := (alGet s1.available_rooms_per_app app_name).getD []
  let avail1 := alInsert s1.available_rooms_per_app app_name (setInsert avail new_room.room_id)
  let s2 := { s1 with available_rooms_per_app := avail1 }
  { s2 with rooms := alInsert s2.rooms new_room.room_id new_room }

/-- `Contract::create_room`. The storage tracker byte counters measured by the
host during the bracket are inputs (`bytes_added`, `bytes_released`): the
measurement itself lives in the absent `storage_tracker.rs` and the NEAR host,
modelled from spec section 4.1. -/
def create_room (s : Contract) (caller : AccountId) (cfg : RoomConfig)
    (deposit : Balance) (bytes_added bytes_released : StorageUsage) :
    Except (CallError × Contract) (Contract × RoomId) :=
  let room_id := s.next_room_id
  let new_room : Room :=
    { room_id := room_id, name := cfg.name, owner_id := caller, players := [caller],
      banned_players := [], player_limit := cfg.player_limit, is_hidden := cfg.is_hidden,
      is_closed := false, extra := cfg.extra }
  match internal_unwrap_account_or_create s caller deposit with
  | .error e => .error (e, s)
  | .ok (s1, account) =>
    let s2 := save_new_room s1 new_room cfg.app_name caller
    let s3 := { s2 with next_room_id := s2.next_room_id + 1 }
    match internal_set_account s3.accounts caller
        { account with storage_tracker := ⟨bytes_added, bytes_released⟩ } with
    | .error e => .error (e, s3)
    | .ok accounts => .ok ({ s3 with accounts := accounts }, room_id)

/-- `Contract::join`. All checks precede all writes, mirroring the source order:
closed, player limit (a less-or-equal test), already joined, banned, app lookup,
then the `current_room` write and the `players` push. -/
def join (s : Contract) (caller : AccountId) (room_id : RoomId) (app_name : AppName) :
    CallResult :=
  match alGet s.rooms room_id with
  | none => fail .roomIdNotFound s
  | some room =>
    if room.is_closed then fail .roomAlreadyClosed s
    else if room.player_limit ≤ room.players.length then fail .playerLimitExceeded s
    else if caller ∈ room.players then fail .alreadyJoined s
    else if caller ∈ room.banned_players then fail .playerBanned s
    else
      match alGet s.rooms_per_app_account app_name with
      | none => fail .appNotFound s
      | some rpa =>
        let rpa1 := alInsert s.rooms_per_app_account app_name (alInsert rpa caller (some room_id))
        let rooms1 := alInsert s.rooms room_id { room with players := room.players ++ [caller] }
        .ok { s with rooms_per_app_account := rpa1, rooms := rooms1 }

/-- Index of the first occurrence, mirroring the manual search loop in
`Contract::leave`. -/
def findFirstIdx [DecidableEq α] (c : α) : List α → Option Nat
  | [] => none
  | a :: t => if a = c then some 0 else (findFirstIdx c t).map (· + 1)

/-- `Vec::swap_remove(i)`: overwrite position `i` with the last element, then
drop the last element. -/
def swapRemove (l : List α) (i : Nat) : List α :=
  match l.getLast? with
  | none => l
  | some z => (l.set i z).dropLast

/-- `Contract::leave`. When the caller is not in `players` the loop falls
through and the call returns success without writing anything. -/
def leave (s : Contract) (caller : AccountId) (room_id : RoomId) (app_name : AppName) :
    CallResult :=
  match alGet s.rooms room_id with
  | none => fail .roomIdNotFound s
  | some room =>
    if room.is_closed then fail .roomAlreadyClosed s
    else
      match alGet s.rooms_per_app_account app_name with
      | none => fail .appNotFound s
      | some rpa =>
        match findFirstIdx caller room.players with
        | none => .ok s
        | some i =>
          let rpa1 := alInsert s.rooms_per_app_account app_name (alInsert rpa caller none)
          let rooms1 := alInsert s.rooms room_id { room with players := swapRemove room.players i }
          .ok { s with rooms_per_app_account := rpa1, rooms := rooms1 }

/-- `Contract::open` (named `open_room` here: `open` is a Lean keyword).
Note the source writes `is_closed = false` before the available-rooms lookup
that can panic, and performs no already-open check. -/
def open_room (s : Contract) (caller : AccountId) (room_id : RoomId) (app_name : AppName) :
    CallResult :=
  match alGet s.rooms room_id with
  | none => fail .roomIdNotFound s
  | some room =>
    if room.owner_id ≠ caller then fail .notAuthorized s
    else
      let s1 := { s with rooms := alInsert s.rooms room_id { room with is_closed := false } }
      match alGet s1.available_rooms_per_app app_name with
      | none => fail .availableRoomsNotFound s1
      | some avail =>
        let avail1 := alInsert s1.available_rooms_per_app app_name (setInsert avail room_id)
        .ok { s1 with available_rooms_per_app := avail1 }

/-- `Contract::remove_room_from_available`. The local `UnorderedSet::remove`
returns whether the id was present; on absence the source panics before the
map write, so the carried state is unchanged. -/
def remove_room_from_available (s : Contract) (room_id : RoomId) (app_name : AppName) :
    CallResult :=
  match alGet s.available_rooms_per_app app_name with
  | none => fail .availableRoomsNotFound s
  | some avail =>
    if room_id ∈ avail then
      let avail1 := alInsert s.available_rooms_per_app app_name (avail.filter (· ≠ room_id))
      .ok { s with available_rooms_per_app := avail1 }
    else fail .roomNotFoundInApp s

/-- `Contract::close`. -/
def close (s : Contract) (caller : AccountId) (room_id : RoomId) (app_name : AppName) :
    CallResult :=
  match alGet s.rooms room_id with
  | none => fail .roomIdNotFound s
  | some room =>
    if room.is_closed then fail .roomAlreadyClosed s
    else if room.owner_id ≠ caller then fail .notAuthorized s
    else
      remove_room_from_available
        { s with rooms := alInsert s.rooms room_id { room with is_closed := true } }
        room_id app_name

/-- `Contract::remove`. The source clears every member's `current_room` entry
and deletes the room from the rooms map before `remove_room_from_available`
runs its membership check, so a panic there observes those writes. -/
def remove (s : Contract) (caller : AccountId) (room_id : RoomId) (app_name : AppName) :
    CallResult :=
  match alGet s.rooms room_id with
  | none => fail .roomIdNotFound s
  | some room =>
    if room.owner_id ≠ caller then fail .notAuthorized s
    else
      match alGet s.rooms_per_app_account app_name with
      | none => fail .appNotFound s
      | some rpa =>
        let rpa1 := room.players.foldl (fun m p => alInsert m p none) rpa
        let rpa2 := alInsert s.rooms_per_app_account app_name rpa1
        let s1 := { s with rooms_per_app_account := rpa2 }
        let s2 := { s1 with rooms := alRemove s1.rooms room_id }
        remove_room_from_available s2 room_id app_name

/-- `Contract::kick_and_ban`: `retain` keeps the non-target players and the
target is appended to `banned_players` unconditionally. -/
def kick_and_ban (s : Contract) (caller : AccountId) (player_to_ban : AccountId)
    (room_id : RoomId) : CallResult :=
  match alGet s.rooms room_id with
  | none => fail .roomIdNotFound s
  | some room =>
    if room.is_closed then fail .roomAlreadyClosed s
    else if room.owner_id ≠ caller then fail .notAuthorized s
    else
      let room1 := { room with players := room.players.filter (· ≠ player_to_ban),
                               banned_players := room.banned_players ++ [player_to_ban] }
      .ok { s with rooms := alInsert s.rooms room_id room1 }

/- ------------------- enumerable.rs ------------------- -/

/-- The `.map(|x| self.rooms.get(x).expect("Room not found"))` collection step
of `get_app_rooms`, short-circuiting at the first missing room. -/
def lookupRooms (s : Contract) : List RoomId → Except CallError (List Room)
  | [] => .ok []
  | id :: rest =>
    match alGet s.rooms id with
    | none => .error .roomNotFound
    | some r =>
      match lookupRooms s rest with
      | .ok l => .ok (r :: l)
      | .error e => .error e

/-- `Contract::get_app_rooms`: `skip(from_index) . take(limit.unwrap_or(0))`. -/
def get_app_rooms (s : Contract) (app_name : AppName) (from_index : Option Nat)
    (limit : Option Nat) : Except CallError (List Room) :=
  match alGet s.available_rooms_per_app app_name with
  | none => .error .appRoomsNotFound
  | some app_rooms =>
    lookupRooms s ((app_rooms.drop (from_index.getD 0)).take (limit.getD 0))

/-- `Contract::get_random_in_range`: `((random as f64 / 256.0) * (max - min) as f64
+ min as f64).floor()`, modelled in exact arithmetic over `ℚ` (all the f64
operations involved are exact for byte numerators over the power-of-two
denominator at any realistic set size). -/
def get_random_in_range (random minv maxv : Nat) : Nat :=
  Nat.floor (((random : ℚ) / 256) * ((maxv - minv : Nat) : ℚ) + ((minv : Nat) : ℚ))

/-- `Contract::get_random_room`; `random` is the entropy byte
`random_seed()[0]` supplied by the host. -/
def get_random_room (s : Contract) (random : Nat) (app_name : AppName) :
    Except CallError Room :=
  match alGet s.available_rooms_per_app app_name with
  | none => .error .appRoomsNotFound
  | some app_rooms =>
    if app_rooms.length = 0 then .error .noAvailableRooms
    else
      match app_rooms.get? (get_random_in_range random 0 app_rooms.length) with
      | none => .error .randomRoomIdNotFound
      | some id =>
        match alGet s.rooms id with
        | none => .error .roomNotFound
        | some r => .ok r

/-- `Contract::random_join`. The membership test is
`if !room.is_none()` on the value of `LookupMap::<AccountId, Option<RoomId>>::get`,
i.e. on the **outer** Option only: an explicit `None` entry (as written by
`leave` and `remove`) also takes the panic branch. -/
def random_join (s : Contract) (caller : AccountId) (random : Nat) (app_name : AppName) :
    Except (CallError × Contract) (Contract × RoomId) :=
  match alGet s.rooms_per_app_account app_name with
  | none => .error (.appNotFound, s)
  | some rpa =>
    match alGet rpa caller with
    | some _ => .error (.accountAlreadyInRoom, s)
    | none =>
      match get_random_room s random app_name with
      | .error e => .error (e, s)
      | .ok room =>
        match join s caller room.room_id app_name with
        | .error es => .error es
        | .ok s1 => .ok (s1, room.room_id)

/- ------------------- operation sequences ------------------- -/

/-- One invocation of a mutating entry point, with the ambient inputs
(caller, deposit, entropy byte, measured tracker bytes) made explicit. -/
inductive Op
  | createRoom (caller : AccountId) (cfg : RoomConfig) (deposit : Balance)
      (bytes_added bytes_released : StorageUsage)
  | joinOp (caller : AccountId) (room_id : RoomId) (app : AppName)
  | randomJoinOp (caller : AccountId) (random : Nat) (app : AppName)
  | leaveOp (caller : AccountId) (room_id : RoomId) (app : AppName)
  | openOp (caller : AccountId) (room_id : RoomId) (app : AppName)
  | closeOp (caller : AccountId) (room_id : RoomId) (app : AppName)
  | removeOp (caller : AccountId) (room_id : RoomId) (app : AppName)
  | kickAndBanOp (caller : AccountId) (target : AccountId) (room_id : RoomId)

/-- Committed semantics of one call: the host persists the final state of a
successful call and discards the state of a panicked one. -/
def applyOp (s : Contract) (op : Op) : Contract :=
  match op with
  | .createRoom c cfg d ba br =>
    match create_room s c cfg d ba br with
    | .ok (s1, _) => s1
    | .error _ => s
  | .joinOp c rid app => match join s c rid app with | .ok s1 => s1 | .error _ => s
  | .randomJoinOp c r app =>
    match random_join s c r app with | .ok (s1, _) => s1 | .error _ => s
  | .leaveOp c rid app => match leave s c rid app with | .ok s1 => s1 | .error _ => s
  | .openOp c rid app => match open_room s c rid app with | .ok s1 => s1 | .error _ => s
  | .closeOp c rid app => match close s c rid app with | .ok s1 => s1 | .error _ => s
  | .removeOp c rid app => match remove s c rid app with | .ok s1 => s1 | .error _ => s
  | .kickAndBanOp c t rid =>
    match kick_and_ban s c t rid with | .ok s1 => s1 | .error _ => s

def runOps (s : Contract) (ops : List Op) : Contract := ops.foldl applyOp s

/- ------------------- association-list and list lemmas ------------------- -/

theorem alGet_alInsert [DecidableEq k] (m : AList k v) (key key' : k) (val : v) :
    alGet (alInsert m key val) key' = if key' = key then some val else alGet m key' := by
  induction m with
  | nil =>
    by_cases h : key' = key
    · subst h; simp [alInsert, alGet]
    · have h2 : ¬key = key' := fun hc => h hc.symm
      simp [alInsert, alGet, h, h2]
  | cons p rest ih =>
    by_cases h1 : p.1 = key
    · by_cases h : key' = key
      · subst h; simp [alInsert, alGet, h1]
      · have h2 : ¬key = key' := fun hc => h hc.symm
        have h3 : ¬p.1 = key' := fun hc => h2 (h1.symm.trans hc)
        simp [alInsert, alGet, h1, h, h2, h3]
    · by_cases h : key' = key
      · subst h; simp [alInsert, alGet, h1, ih]
      · simp [alInsert, alGet, h1, h, ih]

theorem alGet_alRemove [DecidableEq k] (m : AList k v) (key key' : k) :
    alGet (alRemove m key) key' = if key' = key then none else alGet m key' := by
  induction m with
  | nil =>
    by_cases h : key' = key <;> simp [alRemove, alGet, h]
  | cons p rest ih =>
    by_cases h1 : p.1 = key
    · by_cases h : key' = key
      · subst h; simp [alRemove, alGet, h1, ih]
      · have h3 : ¬p.1 = key' := fun hc => h (hc.symm.trans h1)
        have h2 : ¬key = key' := fun hc => h hc.symm
        simp [alRemove, alGet, h1, h, h2, h3, ih]
    · by_cases h : key' = key
      · subst h; simp [alRemove, alGet, h1, ih]
      · simp [alRemove, alGet, h1, h, ih]

theorem findFirstIdx_eq_none [DecidableEq α] (c : α) (l : List α) :
    findFirstIdx c l = none ↔ c ∉ l := by
  induction l with
  | nil => simp [findFirstIdx]
  | cons a t ih =>
    by_cases h : a = c
    · subst h; simp [findFirstIdx]
    · have h2 : c ≠ a := fun hc => h hc.symm
      cases hf : findFirstIdx c t with
      | none =>
        have hmem := ih.mp hf
        simp [findFirstIdx, h, hf, h2, hmem]
      | some j =>
        have hmem : c ∈ t := by
          by_contra hm
          rw [ih.mpr hm] at hf
          cases hf
        simp [findFirstIdx, h, hf, hmem]

theorem findFirstIdx_eq_some [DecidableEq α] (c : α) (l : List α) (i : Nat)
    (h : findFirstIdx c l = some i) : ∃ hi : i < l.length, l.get ⟨i, hi⟩ = c := by
  induction l generalizing i with
  | nil => simp [findFirstIdx] at h
  | cons a t ih =>
    by_cases ha : a = c
    · simp [findFirstIdx, ha] at h
      subst h
      exact ⟨by simp, ha⟩
    · simp [findFirstIdx, ha] at h
      obtain ⟨j, hj, hji⟩ := h
      obtain ⟨hjl, hget⟩ := ih j hj
      subst hji
      exact ⟨by simpa using hjl, by simpa using hget⟩

theorem cons_getLast_dropLast_perm (l : List α) (z : α) (h : l.getLast? = some z) :
    (z :: l.dropLast).Perm l := by
  induction l generalizing z with
  | nil => simp at h
  | cons a t ih =>
    cases t with
    | nil =>
      simp at h
      subst h
      simp
    | cons b t2 =>
      rw [List.getLast?_cons_cons] at h
      have h1 : (z :: (a :: b :: t2).dropLast).Perm (a :: z :: (b :: t2).dropLast) := by
        rw [List.dropLast_cons₂]
        exact List.Perm.swap a z _
      exact h1.trans (List.Perm.cons a (ih z h))

theorem swapRemove_perm (l : List α) (i : Nat) (h : i < l.length) :
    (swapRemove l i).Perm (l.eraseIdx i) := by
  induction l generalizing i with
  | nil => simp at h
  | cons a t ih =>
    cases i with
    | zero =>
      cases t with
      | nil => simp [swapRemove]
      | cons b t2 =>
        have hz : (a :: b :: t2).getLast? = some ((b :: t2).getLast (by simp)) := by
          rw [List.getLast?_cons_cons, List.getLast?_eq_getLast]
        simp only [swapRemove, hz, List.set_cons_zero, List.eraseIdx_cons_zero]
        have hbz : (b :: t2).getLast? = some ((b :: t2).getLast (by simp)) := by
          rw [List.getLast?_eq_getLast]
        have := cons_getLast_dropLast_perm (b :: t2) _ hbz
        simpa [List.dropLast_cons₂] using this
    | succ j =>
      cases t with
      | nil => simp at h
      | cons b t2 =>
        have hz : (a :: b :: t2).getLast? = (b :: t2).getLast? := List.getLast?_cons_cons ..
        have hbz : (b :: t2).getLast? = some ((b :: t2).getLast (by simp)) := by
          rw [List.getLast?_eq_getLast]
        have hj : j < (b :: t2).length := by simpa using h
        have := ih j hj
        simp only [swapRemove, hz, hbz, List.set_cons_succ, List.eraseIdx_cons_succ] at this ⊢
        have hne : (b :: t2).set j ((b :: t2).getLast (by simp)) ≠ [] := by
          intro hc
          have := congrArg List.length hc
          simp at this
        rw [List.dropLast_cons_of_ne_nil hne]
        exact List.Perm.cons a this

theorem not_mem_eraseIdx_of_nodup (l : List α) (i : Nat) (hl : l.Nodup)
    (h : i < l.length) : l.get ⟨i, h⟩ ∉ l.eraseIdx i := by
  induction l generalizing i with
  | nil => simp at h
  | cons a t ih =>
    cases i with
    | zero =>
      simp only [List.get_cons_zero, List.eraseIdx_cons_zero]
      exact (List.nodup_cons.mp hl).1
    | succ j =>
      have hj : j < t.length := by simpa using h
      have hget : (a :: t).get ⟨j + 1, h⟩ = t.get ⟨j, hj⟩ := rfl
      rw [hget, List.eraseIdx_cons_succ]
      intro hmem
      rcases List.mem_cons.mp hmem with hc | hc
      · have hmem2 : t.get ⟨j, hj⟩ ∈ t := t.get_mem j hj
        rw [hc] at hmem2
        exact (List.nodup_cons.mp hl).1 hmem2
      · exact ih j (List.nodup_cons.mp hl).2 hj hc

theorem swapRemove_nodup (l : List α) (i : Nat) (h : i < l.length) (hl : l.Nodup) :
    (swapRemove l i).Nodup :=
  ((swapRemove_perm l i h).nodup_iff).mpr ((List.eraseIdx_sublist l i).nodup hl)

theorem swapRemove_subset (l : List α) (i : Nat) (h : i < l.length) :
    ∀ x ∈ swapRemove l i, x ∈ l := fun _ hx =>
  (List.eraseIdx_sublist l i).subset (((swapRemove_perm l i h).mem_iff).mp hx)

theorem swapRemove_length (l : List α) (i : Nat) (h : i < l.length) :
    (swapRemove l i).length = l.length - 1 := by
  rw [(swapRemove_perm l i h).length_eq]
  simp [List.length_eraseIdx, h]

theorem not_mem_swapRemove (l : List α) (i : Nat) (hl : l.Nodup) (h : i < l.length) :
    l.get ⟨i, h⟩ ∉ swapRemove l i := fun hc =>
  not_mem_eraseIdx_of_nodup l i hl h (((swapRemove_perm l i h).mem_iff).mp hc)

/- ------------------- inversion lemmas: shape of a successful call ------------------- -/

theorem internal_set_account_accounts_only {m : AList AccountId Account} {id : AccountId}
    {a : Account} {m1 : AList AccountId Account}
    (h : internal_set_account m id a = .ok m1) :
    ∃ a1 : Account, m1 = alInsert m id a1 := by
  simp only [internal_set_account] at h
  split_ifs at h with h1 h2 h3 h4 <;> cases h <;> exact ⟨_, rfl⟩

theorem internal_create_account_rooms {s : Contract} {id : AccountId} {d : Balance}
    {s1 : Contract} (h : internal_create_account s id d = .ok s1) :
    s1.rooms = s.rooms ∧ s1.available_rooms_per_app = s.available_rooms_per_app ∧
      s1.rooms_per_app_account = s.rooms_per_app_account ∧
      s1.next_room_id = s.next_room_id := by
  simp only [internal_create_account] at h
  split_ifs at h with hd
  cases h
  exact ⟨rfl, rfl, rfl, rfl⟩

theorem internal_unwrap_account_or_create_rooms {s : Contract} {id : AccountId}
    {d : Balance} {s1 : Contract} {a : Account}
    (h : internal_unwrap_account_or_create s id d = .ok (s1, a)) :
    s1.rooms = s.rooms ∧ s1.available_rooms_per_app = s.available_rooms_per_app ∧
      s1.rooms_per_app_account = s.rooms_per_app_account ∧
      s1.next_room_id = s.next_room_id := by
  unfold internal_unwrap_account_or_create at h
  cases hacc : alGet s.accounts id with
  | some a0 =>
    rw [hacc] at h
    cases h
    exact ⟨rfl, rfl, rfl, rfl⟩
  | none =>
    rw [hacc] at h
    cases hcreate : internal_create_account s id d with
    | error e => rw [hcreate] at h; cases h
    | ok s2 =>
      rw [hcreate] at h
      simp only at h
      cases hacc2 : alGet s2.accounts id with
      | none => rw [hacc2] at h; cases h
      | some a2 =>
        rw [hacc2] at h
        cases h
        exact internal_create_account_rooms hcreate

/-- The room the successful `create_room` stores under the fresh id. -/
def createdRoom (s : Contract) (caller : AccountId) (cfg : RoomConfig) : Room :=
  { room_id := s.next_room_id, name := cfg.name, owner_id := caller, players := [caller],
    banned_players := [], player_limit := cfg.player_limit, is_hidden := cfg.is_hidden,
    is_closed := false, extra := cfg.extra }

theorem create_room_ok_rooms {s : Contract} {caller : AccountId} {cfg : RoomConfig}
    {d : Balance} {ba br : StorageUsage} {s1 : Contract} {rid : RoomId}
    (h : create_room s caller cfg d ba br = .ok (s1, rid)) :
    s1.rooms = alInsert s.rooms s.next_room_id (createdRoom s caller cfg) ∧
      rid = s.next_room_id := by
  unfold create_room at h
  cases hw : internal_unwrap_account_or_create s caller d with
  | error e => rw [hw] at h; cases h
  | ok pair =>
    obtain ⟨s2, account⟩ := pair
    rw [hw] at h
    simp only at h
    have hfields := internal_unwrap_account_or_create_rooms hw
    cases hset : internal_set_account
        (save_new_room s2 (createdRoom s caller cfg) cfg.app_name caller).accounts caller
        { account with storage_tracker := ⟨ba, br⟩ } with
    | error e =>
      rw [show (createdRoom s caller cfg) = (createdRoom s caller cfg) from rfl] at hset
      unfold createdRoom at hset
      rw [hset] at h
      cases h
    | ok m1 =>
      unfold createdRoom at hset
      rw [hset] at h
      cases h
      refine ⟨?_, rfl⟩
      show (save_new_room s2 (createdRoom s caller cfg) cfg.app_name caller).rooms = _
      unfold save_new_room createdRoom
      simp only
      rw [hfields.1]

theorem join_ok_shape {s : Contract} {c : AccountId} {rid : RoomId} {app : AppName}
    {s1 : Contract} (h : join s c rid app = .ok s1) :
    ∃ room, alGet s.rooms rid = some room ∧ room.is_closed = false ∧
      room.players.length < room.player_limit ∧ c ∉ room.players ∧
      c ∉ room.banned_players ∧
      s1.rooms = alInsert s.rooms rid { room with players := room.players ++ [c] } := by
  unfold join at h
  cases hroom : alGet s.rooms rid with
  | none => rw [hroom] at h; cases h
  | some room =>
    rw [hroom] at h
    simp only at h
    split_ifs at h with h1 h2 h3 h4
    · cases h
    · cases h
    · cases h
    · cases h
    · cases happ : alGet s.rooms_per_app_account app with
      | none => rw [happ] at h; cases h
      | some rpa =>
        rw [happ] at h
        simp only at h
        cases h
        exact ⟨room, rfl, by simpa using h1, by omega, h3, h4, rfl⟩

theorem leave_ok_shape {s : Contract} {c : AccountId} {rid : RoomId} {app : AppName}
    {s1 : Contract} (h : leave s c rid app = .ok s1) :
    (s1.rooms = s.rooms ∧ ∀ room, alGet s.rooms rid = some room → c ∉ room.players) ∨
      ∃ room i, ∃ hi : i < room.players.length,
        alGet s.rooms rid = some room ∧ room.players.get ⟨i, hi⟩ = c ∧
        s1.rooms = alInsert s.rooms rid { room with players := swapRemove room.players i } := by
  unfold leave at h
  cases hroom : alGet s.rooms rid with
  | none => rw [hroom] at h; cases h
  | some room =>
    rw [hroom] at h
    simp only at h
    split_ifs at h with h1
    · cases h
    · cases happ : alGet s.rooms_per_app_account app with
      | none => rw [happ] at h; cases h
      | some rpa =>
        rw [happ] at h
        simp only at h
        cases hidx : findFirstIdx c room.players with
        | none =>
          rw [hidx] at h
          simp only at h
          cases h
          refine .inl ⟨rfl, fun room1 h1 => ?_⟩
          cases h1
          exact (findFirstIdx_eq_none c room.players).mp hidx
        | some i =>
          rw [hidx] at h
          simp only at h
          cases h
          obtain ⟨hi, hget⟩ := findFirstIdx_eq_some c room.players i hidx
          exact .inr ⟨room, i, hi, rfl, hget, rfl⟩

theorem open_room_ok_shape {s : Contract} {c : AccountId} {rid : RoomId} {app : AppName}
    {s1 : Contract} (h : open_room s c rid app = .ok s1) :
    ∃ room, alGet s.rooms rid = some room ∧ room.owner_id = c ∧
      s1.rooms = alInsert s.rooms rid { room with is_closed := false } := by
  unfold open_room at h
  cases hroom : alGet s.rooms rid with
  | none => rw [hroom] at h; cases h
  | some room =>
    rw [hroom] at h
    simp only at h
    split_ifs at h with h1
    · cases h
    · cases havail : alGet s.available_rooms_per_app app with
      | none => rw [havail] at h; cases h
      | some avail =>
        rw [havail] at h
        simp only at h
        cases h
        exact ⟨room, rfl, by simpa using h1, rfl⟩

theorem remove_room_from_available_ok_shape {s : Contract} {rid : RoomId} {app : AppName}
    {s1 : Contract} (h : remove_room_from_available s rid app = .ok s1) :
    s1.rooms = s.rooms := by
  unfold remove_room_from_available at h
  cases havail : alGet s.available_rooms_per_app app with
  | none => rw [havail] at h; cases h
  | some avail =>
    rw [havail] at h
    simp only at h
    split_ifs at h with hmem
    · cases h; rfl
    · cases h

theorem close_ok_shape {s : Contract} {c : AccountId} {rid : RoomId} {app : AppName}
    {s1 : Contract} (h : close s c rid app = .ok s1) :
    ∃ room, alGet s.rooms rid = some room ∧
      s1.rooms = alInsert s.rooms rid { room with is_closed := true } := by
  unfold close at h
  cases hroom : alGet s.rooms rid with
  | none => rw [hroom] at h; cases h
  | some room =>
    rw [hroom] at h
    simp only at h
    split_ifs at h with h1 h2
    · cases h
    · cases h
    · exact ⟨room, rfl, remove_room_from_available_ok_shape h⟩

theorem remove_ok_shape {s : Contract} {c : AccountId} {rid : RoomId} {app : AppName}
    {s1 : Contract} (h : remove s c rid app = .ok s1) :
    ∃ rooms0, s1.rooms = alRemove rooms0 rid ∧ rooms0 = s.rooms := by
  unfold remove at h
  cases hroom : alGet s.rooms rid with
  | none => rw [hroom] at h; cases h
  | some room =>
    rw [hroom] at h
    simp only at h
    split_ifs at h with h1
    · cases h
    · cases happ : alGet s.rooms_per_app_account app with
      | none => rw [happ] at h; cases h
      | some rpa =>
        rw [happ] at h
        simp only at h
        exact ⟨s.rooms, remove_room_from_available_ok_shape h, rfl⟩

theorem kick_and_ban_ok_shape {s : Contract} {c t : AccountId} {rid : RoomId}
    {s1 : Contract} (h : kick_and_ban s c t rid = .ok s1) :
    ∃ room, alGet s.rooms rid = some room ∧
      s1.rooms = alInsert s.rooms rid
        { room with players := room.players.filter (· ≠ t),
                    banned_players := room.banned_players ++ [t] } := by
  unfold kick_and_ban at h
  cases hroom : alGet s.rooms rid with
  | none => rw [hroom] at h; cases h
  | some room =>
    rw [hroom] at h
    simp only at h
    split_ifs at h with h1 h2
    · cases h
    · cases h
    · cases h
      exact ⟨room, rfl, rfl⟩

theorem random_join_ok_shape {s : Contract} {c : AccountId} {r : Nat} {app : AppName}
    {s1 : Contract} {rid : RoomId} (h : random_join s c r app = .ok (s1, rid)) :
    join s c rid app = .ok s1 := by
  unfold random_join at h
  cases happ : alGet s.rooms_per_app_account app with
  | none => rw [happ] at h; cases h
  | some rpa =>
    rw [happ] at h
    simp only at h
    cases hcur : alGet rpa c with
    | some v => rw [hcur] at h; cases h
    | none =>
      rw [hcur] at h
      simp only at h
      cases hrand : get_random_room s r app with
      | error e => rw [hrand] at h; cases h
      | ok room =>
        rw [hrand] at h
        simp only at h
        cases hjoin : join s c room.room_id app with
        | error es => rw [hjoin] at h; cases h
        | ok s2 =>
          rw [hjoin] at h
          simp only at h
          cases h
          exact hjoin

/- ------------------- the per-room invariant and its preservation ------------------- -/

/-- The amended room invariant: no duplicate players, players disjoint from the
banned list, and the player count bounded by `max player_limit 1` (the `1`
because `create_room` seeds the owner regardless of `player_limit`). -/
def RoomInv (room : Room) : Prop :=
  room.players.Nodup ∧ (∀ p ∈ room.players, p ∉ room.banned_players) ∧
    room.players.length ≤ max room.player_limit 1

def RoomsInv (m : AList RoomId Room) : Prop :=
  ∀ id room, alGet m id = some room → RoomInv room

theorem roomsInv_insert {m : AList RoomId Room} (hm : RoomsInv m) {rid : RoomId}
    {room : Room} (hroom : RoomInv room) : RoomsInv (alInsert m rid room) := by
  intro id r h
  rw [alGet_alInsert] at h
  split_ifs at h with he
  · cases h; exact hroom
  · exact hm id r h

theorem roomsInv_remove {m : AList RoomId Room} (hm : RoomsInv m) (rid : RoomId) :
    RoomsInv (alRemove m rid) := by
  intro id r h
  rw [alGet_alRemove] at h
  split_ifs at h with he
  exact hm id r h

theorem roomInv_created (s : Contract) (caller : AccountId) (cfg : RoomConfig) :
    RoomInv (createdRoom s caller cfg) := by
  refine ⟨by simp [createdRoom], by simp [createdRoom], ?_⟩
  simp only [createdRoom, List.length_singleton]
  exact le_max_right _ _

theorem roomInv_join {room : Room} (hr : RoomInv room) {c : AccountId}
    (hlen : room.players.length < room.player_limit) (hmem : c ∉ room.players)
    (hban : c ∉ room.banned_players) :
    RoomInv { room with players := room.players ++ [c] } := by
  obtain ⟨hnd, hdisj, _⟩ := hr
  refine ⟨?_, ?_, ?_⟩
  · simp only [List.nodup_append, List.nodup_cons, List.nodup_nil]
    refine ⟨hnd, by simp, ?_⟩
    intro x hx hxc
    rw [List.mem_singleton] at hxc
    subst hxc
    exact hmem hx
  · intro p hp
    rcases List.mem_append.mp hp with hp | hp
    · exact hdisj p hp
    · rw [List.mem_singleton.mp hp]; exact hban
  · simp only [List.length_append, List.length_singleton]
    have := le_max_left room.player_limit 1
    omega

theorem roomInv_leave {room : Room} (hr : RoomInv room) {i : Nat}
    (hi : i < room.players.length) :
    RoomInv { room with players := swapRemove room.players i } := by
  obtain ⟨hnd, hdisj, hlen⟩ := hr
  refine ⟨swapRemove_nodup _ i hi hnd, ?_, ?_⟩
  · intro p hp
    exact hdisj p (swapRemove_subset _ i hi p hp)
  · show (swapRemove room.players i).length ≤ max room.player_limit 1
    rw [swapRemove_length _ i hi]
    exact le_trans (Nat.sub_le _ 1) hlen

theorem roomInv_open {room : Room} (hr : RoomInv room) :
    RoomInv { room with is_closed := false } := hr

theorem roomInv_close {room : Room} (hr : RoomInv room) :
    RoomInv { room with is_closed := true } := hr

theorem roomInv_kick {room : Room} (hr : RoomInv room) (t : AccountId) :
    RoomInv { room with players := room.players.filter (· ≠ t),
                        banned_players := room.banned_players ++ [t] } := by
  obtain ⟨hnd, hdisj, hlen⟩ := hr
  refine ⟨hnd.filter _, ?_, ?_⟩
  · intro p hp
    have hmem := List.mem_of_mem_filter hp
    have hne : p ≠ t := by simpa using (List.of_mem_filter hp)
    intro hc
    rcases List.mem_append.mp hc with hc | hc
    · exact hdisj p hmem hc
    · exact hne (List.mem_singleton.mp hc)
  · show (room.players.filter (· ≠ t)).length ≤ max room.player_limit 1
    exact le_trans (List.length_filter_le _ _) hlen

theorem applyOp_preserves_roomsInv (s : Contract) (op : Op) (hs : RoomsInv s.rooms) :
    RoomsInv (applyOp s op).rooms := by
  cases op with
  | createRoom c cfg d ba br =>
    simp only [applyOp]
    cases hc : create_room s c cfg d ba br with
    | error e => exact hs
    | ok pair =>
      obtain ⟨s1, rid⟩ := pair
      obtain ⟨hrooms, -⟩ := create_room_ok_rooms hc
      rw [hrooms]
      exact roomsInv_insert hs (roomInv_created s c cfg)
  | joinOp c rid app =>
    simp only [applyOp]
    cases hc : join s c rid app with
    | error e => exact hs
    | ok s1 =>
      obtain ⟨room, hroom, hcl, hlen, hmem, hban, hrooms⟩ := join_ok_shape hc
      rw [hrooms]
      exact roomsInv_insert hs (roomInv_join (hs rid room hroom) hlen hmem hban)
  | randomJoinOp c r app =>
    simp only [applyOp]
    cases hc : random_join s c r app with
    | error e => exact hs
    | ok pair =>
      obtain ⟨s1, rid⟩ := pair
      obtain ⟨room, hroom, hcl, hlen, hmem, hban, hrooms⟩ :=
        join_ok_shape (random_join_ok_shape hc)
      rw [hrooms]
      exact roomsInv_insert hs (roomInv_join (hs rid room hroom) hlen hmem hban)
  | leaveOp c rid app =>
    simp only [applyOp]
    cases hc : leave s c rid app with
    | error e => exact hs
    | ok s1 =>
      rcases leave_ok_shape hc with ⟨hsame, -⟩ | ⟨room, i, hi, hroom, hget, hrooms⟩
      · rw [hsame]; exact hs
      · rw [hrooms]
        exact roomsInv_insert hs (roomInv_leave (hs rid room hroom) hi)
  | openOp c rid app =>
    simp only [applyOp]
    cases hc : open_room s c rid app with
    | error e => exact hs
    | ok s1 =>
      obtain ⟨room, hroom, hown, hrooms⟩ := open_room_ok_shape hc
      rw [hrooms]
      exact roomsInv_insert hs (roomInv_open (hs rid room hroom))
  | closeOp c rid app =>
    simp only [applyOp]
    cases hc : close s c rid app with
    | error e => exact hs
    | ok s1 =>
      obtain ⟨room, hroom, hrooms⟩ := close_ok_shape hc
      rw [hrooms]
      exact roomsInv_insert hs (roomInv_close (hs rid room hroom))
  | removeOp c rid app =>
    simp only [applyOp]
    cases hc : remove s c rid app with
    | error e => exact hs
    | ok s1 =>
      obtain ⟨rooms0, hrooms, hr0⟩ := remove_ok_shape hc
      rw [hrooms, hr0]
      exact roomsInv_remove hs rid
  | kickAndBanOp c t rid =>
    simp only [applyOp]
    cases hc : kick_and_ban s c t rid with
    | error e => exact hs
    | ok s1 =>
      obtain ⟨room, hroom, hrooms⟩ := kick_and_ban_ok_shape hc
      rw [hrooms]
      exact roomsInv_insert hs (roomInv_kick (hs rid room hroom) t)

theorem runOps_roomsInv (ops : List Op) :
    ∀ s : Contract, RoomsInv s.rooms → RoomsInv (runOps s ops).rooms := by
  induction ops with
  | nil => intro s hs; exact hs
  | cons op rest ih =>
    intro s hs
    exact ih (applyOp s op) (applyOp_preserves_roomsInv s op hs)

theorem initial_roomsInv : RoomsInv initialContract.rooms := by
  intro id room h
  cases h

/- ------------------- concrete scenario states ------------------- -/

/-- Config of the demo room: app "app", limit 2. -/
def demoCfg : RoomConfig := ⟨"app", "r", false, 2, none⟩

/-- Config with `player_limit = 0`. -/
def demoCfg0 : RoomConfig := ⟨"app", "r", false, 0, none⟩

/-- State after "alice" creates room 0 (open, limit 2, sole player "alice"). -/
def sOpen : Contract :=
  runOps initialContract [.createRoom "alice" demoCfg MIN_STORAGE_BALANCE 300 0]

/-- `sOpen` after the owner closes room 0. -/
def sClosed : Contract :=
  runOps initialContract
    [.createRoom "alice" demoCfg MIN_STORAGE_BALANCE 300 0, .closeOp "alice" 0 "app"]

/-- State after "alice" creates a room with `player_limit = 0`. -/
def sLimit0 : Contract :=
  runOps initialContract [.createRoom "alice" demoCfg0 MIN_STORAGE_BALANCE 300 0]

/-- `sOpen` after the owner leaves their own room. -/
def sLeaveOnly : Contract :=
  runOps initialContract
    [.createRoom "alice" demoCfg MIN_STORAGE_BALANCE 300 0, .leaveOp "alice" 0 "app"]

/-- `sOpen` after the owner leaves and then removes the room: the app's
available set exists but is empty, and `current_room["app"]["alice"]` holds
an explicit inner `none`. -/
def sLeft : Contract :=
  runOps initialContract
    [.createRoom "alice" demoCfg MIN_STORAGE_BALANCE 300 0,
     .leaveOp "alice" 0 "app", .removeOp "alice" 0 "app"]

/- ------------------- claim theorems ------------------- -/

/-- C1: in a reachable state where room 0 exists, its owner "alice" is the
caller, and its id is absent from `available_rooms["app"]` (the room was
closed), `remove` neither fully succeeds nor leaves the state unchanged: it
panics with "Room not found in the app" only after it has already cleared
"alice"'s `current_room` entry to an explicit `none` and deleted room 0 from
the rooms map, so at the panic point the rooms map and the `current_room`
entry are both changed. Atomicity here would rest entirely on the host's
transaction rollback, not on the contract's own write discipline. -/
theorem c1_remove_writes_before_failing_check :
    alGet sClosed.rooms 0 = some ⟨0, "r", "alice", ["alice"], [], 2, false, true, none⟩ ∧
    alGet sClosed.available_rooms_per_app "app" = some [] ∧
    (∃ rpa, alGet sClosed.rooms_per_app_account "app" = some rpa ∧
      alGet rpa "alice" = some (some 0)) ∧
    remove sClosed "alice" 0 "app" =
      .error (.roomNotFoundInApp,
        { rooms := [], accounts := sClosed.accounts,
          available_rooms_per_app := [("app", [])],
          rooms_per_app_account := [("app", [("alice", none)])],
          storage_deposits := [], next_room_id := 1 }) := by
  refine ⟨by decide, by decide, ⟨[("alice", some (some 0) |>.getD none)], ?_, ?_⟩, by decide⟩
  · decide
  · decide

/-- C2: `internal_set_account` reconciles the tracker into `used_bytes`:
with `net = bytes_added - bytes_released`, if `net > 0` it adds `net` to
`used_bytes` and fails with "Not enough storage balance" exactly when the new
`used_bytes * STORAGE_PRICE_PER_BYTE` exceeds `storage_balance`; if `net < 0`
it subtracts `|net|`, failing with the fatal accounting-bug assertion exactly
when that would underflow; and whenever the account is stored the tracker is
reset to zero first. -/
theorem c2_internal_set_account_reconciles (m : AList AccountId Account)
    (id : AccountId) (a : Account) :
    (a.storage_tracker.bytes_released < a.storage_tracker.bytes_added →
      ((a.used_bytes + (a.storage_tracker.bytes_added - a.storage_tracker.bytes_released)) *
            STORAGE_PRICE_PER_BYTE ≤ a.storage_balance →
        internal_set_account m id a = .ok (alInsert m id
          ⟨a.storage_balance,
           a.used_bytes + (a.storage_tracker.bytes_added - a.storage_tracker.bytes_released),
           ⟨0, 0⟩⟩)) ∧
      (a.storage_balance <
          (a.used_bytes + (a.storage_tracker.bytes_added - a.storage_tracker.bytes_released)) *
            STORAGE_PRICE_PER_BYTE →
        internal_set_account m id a = .error .notEnoughStorageBalance)) ∧
    (a.storage_tracker.bytes_added < a.storage_tracker.bytes_released →
      ((a.storage_tracker.bytes_released - a.storage_tracker.bytes_added ≤ a.used_bytes →
        internal_set_account m id a = .ok (alInsert m id
          ⟨a.storage_balance,
           a.used_bytes - (a.storage_tracker.bytes_released - a.storage_tracker.bytes_added),
           ⟨0, 0⟩⟩)) ∧
      (a.used_bytes < a.storage_tracker.bytes_released - a.storage_tracker.bytes_added →
        internal_set_account m id a = .error .accountingBug))) ∧
    (a.storage_tracker.bytes_added = a.storage_tracker.bytes_released →
      internal_set_account m id a =
        .ok (alInsert m id ⟨a.storage_balance, a.used_bytes, ⟨0, 0⟩⟩)) := by
  refine ⟨fun h1 => ⟨fun h2 => ?_, fun h2 => ?_⟩,
          fun h1 => ⟨fun h2 => ?_, fun h2 => ?_⟩, fun h1 => ?_⟩
  · have hcov : assert_storage_covered
        { a with used_bytes := a.used_bytes +
            (a.storage_tracker.bytes_added - a.storage_tracker.bytes_released) } = true := by
      simp only [assert_storage_covered, decide_eq_true_eq]
      exact h2
    simp only [internal_set_account]
    rw [if_pos h1, if_pos hcov]
  · have hcov : ¬(assert_storage_covered
        { a with used_bytes := a.used_bytes +
            (a.storage_tracker.bytes_added - a.storage_tracker.bytes_released) } = true) := by
      simp only [assert_storage_covered, decide_eq_true_eq]
      exact not_le.mpr h2
    simp only [internal_set_account]
    rw [if_pos h1, if_neg hcov]
  · have hne : ¬(a.storage_tracker.bytes_released < a.storage_tracker.bytes_added) :=
      Nat.lt_asymm h1
    simp only [internal_set_account]
    rw [if_neg hne, if_pos h1, if_pos h2]
  · have hne : ¬(a.storage_tracker.bytes_released < a.storage_tracker.bytes_added) :=
      Nat.lt_asymm h1
    have hun : ¬(a.storage_tracker.bytes_released - a.storage_tracker.bytes_added ≤
        a.used_bytes) := not_le.mpr h2
    simp only [internal_set_account]
    rw [if_neg hne, if_pos h1, if_neg hun]
  · have hne1 : ¬(a.storage_tracker.bytes_released < a.storage_tracker.bytes_added) := by
      rw [h1]
      exact lt_irrefl _
    have hne2 : ¬(a.storage_tracker.bytes_added < a.storage_tracker.bytes_released) := by
      rw [h1]
      exact lt_irrefl _
    simp only [internal_set_account]
    rw [if_neg hne1, if_neg hne2]

theorem c2_witness :
    internal_set_account [] "alice"
        ⟨MIN_STORAGE_BALANCE, 0, ⟨100, 40⟩⟩ =
      .ok (alInsert [] "alice" ⟨MIN_STORAGE_BALANCE, 60, ⟨0, 0⟩⟩) :=
  ((c2_internal_set_account_reconciles [] "alice"
      ⟨MIN_STORAGE_BALANCE, 0, ⟨100, 40⟩⟩).1 (by decide)).1 (by decide)

/-- C3 counterexample: `create_room` performs no check on `player_limit` and
seeds `players` with the owner, so with `player_limit = 0` the created room
already violates `players.length ≤ player_limit`. -/
theorem c3_counterexample_limit_zero :
    ∃ room : Room, alGet sLimit0.rooms 0 = some room ∧
      ¬room.players.length ≤ room.player_limit :=
  ⟨⟨0, "r", "alice", ["alice"], [], 0, false, false, none⟩, by decide, by decide⟩

/-- C3 (amended): for every room reachable by any sequence of operations,
`players` never contains a banned identity, never contains duplicates, and its
length never exceeds `max player_limit 1` — the extra `1` is forced because
`create_room` seeds the owner as sole player regardless of `player_limit`, so
for `player_limit = 0` the claimed bound `players.length ≤ player_limit` fails
immediately after creation. -/
theorem c3_reachable_room_invariants (ops : List Op) (id : RoomId) (room : Room)
    (h : alGet (runOps initialContract ops).rooms id = some room) :
    room.players.Nodup ∧ (∀ p ∈ room.players, p ∉ room.banned_players) ∧
      room.players.length ≤ max room.player_limit 1 :=
  runOps_roomsInv ops initialContract initial_roomsInv id room h

theorem c3_witness :
    (⟨0, "r", "alice", ["alice"], [], 2, false, false, none⟩ : Room).players.Nodup ∧
    (∀ p ∈ (⟨0, "r", "alice", ["alice"], [], 2, false, false, none⟩ : Room).players,
      p ∉ (⟨0, "r", "alice", ["alice"], [], 2, false, false, none⟩ : Room).banned_players) ∧
    (⟨0, "r", "alice", ["alice"], [], 2, false, false, none⟩ : Room).players.length ≤
      max (⟨0, "r", "alice", ["alice"], [], 2, false, false, none⟩ : Room).player_limit 1 :=
  c3_reachable_room_invariants
    [.createRoom "alice" demoCfg MIN_STORAGE_BALANCE 300 0] 0
    ⟨0, "r", "alice", ["alice"], [], 2, false, false, none⟩ (by decide)

/-- C5: the state `sLeft` is reached by create, leave, remove; in it the app
index exists, `current_room["app"]["alice"]` is the explicit inner `none`
written by `leave`/`remove` (spec: "absence or explicit none both mean not in
a room"), and `available_rooms["app"]` is empty — yet `random_join` fails with
"Account is already in the room" (`AlreadyInRoom`) instead of
`NoRoomsAvailable`, because `if !room.is_none()` tests only the outer Option
returned by `LookupMap::get`. -/
theorem c5_random_join_mistakes_explicit_none_for_membership :
    alGet sLeft.available_rooms_per_app "app" = some [] ∧
    alGet sLeft.rooms_per_app_account "app" = some [("alice", none)] ∧
    random_join sLeft "alice" 0 "app" = .error (.accountAlreadyInRoom, sLeft) := by
  refine ⟨by decide, by decide, by decide⟩

/-- C6: the selection computation `floor((r / 256) * n)` of
`get_random_in_range` (with `min = 0`, `max = n`) lands in `[0, n-1]` for
every entropy byte `r ≤ 255` and every set size `n ≥ 1`, so the indexing in
`get_random_room` never goes out of bounds. -/
theorem c6_get_random_in_range_bounds (r n : Nat) (hr : r ≤ 255) (hn : 1 ≤ n) :
    get_random_in_range r 0 n ≤ n - 1 ∧ get_random_in_range r 0 n < n := by
  have hlt : get_random_in_range r 0 n < n := by
    unfold get_random_in_range
    simp only [Nat.sub_zero, Nat.cast_zero, add_zero]
    have hnpos : (0 : ℚ) < (n : ℚ) := by
      have : (0 : Nat) < n := hn
      exact_mod_cast this
    rw [Nat.floor_lt (by positivity)]
    have h1 : (r : ℚ) / 256 < 1 := by
      rw [div_lt_one (by norm_num)]
      have : (r : Nat) < 256 := by omega
      exact_mod_cast this
    calc (r : ℚ) / 256 * (n : ℚ) < 1 * (n : ℚ) := mul_lt_mul_of_pos_right h1 hnpos
      _ = (n : ℚ) := one_mul _
  exact ⟨by omega, hlt⟩

theorem c6_witness :
    get_random_in_range 255 0 7 ≤ 7 - 1 ∧ get_random_in_range 255 0 7 < 7 :=
  c6_get_random_in_range_bounds 255 7 (by decide) (by decide)

/-- C10: when the app has an entry in `available_rooms_per_app`,
`get_app_rooms` with `limit = None` returns the empty list for every
`from_index`, because `take(limit.unwrap_or(0))` takes zero elements. -/
theorem c10_get_app_rooms_default_limit_empty (s : Contract) (app : AppName)
    (ids : List RoomId) (from_index : Option Nat)
    (h : alGet s.available_rooms_per_app app = some ids) :
    get_app_rooms s app from_index none = .ok [] := by
  unfold get_app_rooms
  rw [h]
  simp only [Option.getD_none, List.take_zero, lookupRooms]

theorem c10_witness : get_app_rooms sOpen "app" (some 0) none = .ok [] :=
  c10_get_app_rooms_default_limit_empty sOpen "app" [0] (some 0) (by decide)

/-- C4 counterexample: room 0 in `sLimit0` is open with `player_limit = 0` and
players `["alice"]`; for caller "bob" none of the claim's four failure
conditions holds — in particular `players.len() ≠ player_limit` — and the app
index exists, so the claim requires success, yet `join` fails with
`PlayerLimitExceeded`: the code tests `player_limit <= players.len()`, not
equality. -/
theorem c4_counterexample_join_ge_check :
    (∃ room : Room, alGet sLimit0.rooms 0 = some room ∧ room.is_closed = false ∧
      room.players.length ≠ room.player_limit ∧ "bob" ∉ room.players ∧
      "bob" ∉ room.banned_players) ∧
    (∃ rpa, alGet sLimit0.rooms_per_app_account "app" = some rpa) ∧
    join sLimit0 "bob" 0 "app" = .error (.playerLimitExceeded, sLimit0) := by
  refine ⟨⟨⟨0, "r", "alice", ["alice"], [], 0, false, false, none⟩,
    by decide, by decide, by decide, by decide, by decide⟩,
    ⟨[("alice", some 0)], by decide⟩, by decide⟩

/-- C4 (amended): for every existing room, `join` fails with `RoomClosed` if
the room is closed, with `PlayerLimitExceeded` if `players.len() >=
player_limit` (a less-or-equal check, not equality), with `AlreadyJoined` if
the caller is a member, with `PlayerBanned` if the caller is banned, with an
app-not-found panic if the app index is missing; otherwise it succeeds,
appends the caller to `players` and sets `current_room[app][caller] =
room_id`, leaving all other room fields unchanged. -/
theorem c4_join_functional_spec (s : Contract) (c : AccountId) (rid : RoomId)
    (app : AppName) (room : Room) (hroom : alGet s.rooms rid = some room) :
    (room.is_closed = true → join s c rid app = fail .roomAlreadyClosed s) ∧
    (room.is_closed = false → room.player_limit ≤ room.players.length →
      join s c rid app = fail .playerLimitExceeded s) ∧
    (room.is_closed = false → room.players.length < room.player_limit →
      c ∈ room.players → join s c rid app = fail .alreadyJoined s) ∧
    (room.is_closed = false → room.players.length < room.player_limit →
      c ∉ room.players → c ∈ room.banned_players →
      join s c rid app = fail .playerBanned s) ∧
    (room.is_closed = false → room.players.length < room.player_limit →
      c ∉ room.players → c ∉ room.banned_players →
      alGet s.rooms_per_app_account app = none →
      join s c rid app = fail .appNotFound s) ∧
    (∀ rpa, room.is_closed = false → room.players.length < room.player_limit →
      c ∉ room.players → c ∉ room.banned_players →
      alGet s.rooms_per_app_account app = some rpa →
      join s c rid app = .ok { s with
        rooms_per_app_account :=
          alInsert s.rooms_per_app_account app (alInsert rpa c (some rid)),
        rooms := alInsert s.rooms rid { room with players := room.players ++ [c] } }) := by
  refine ⟨fun h1 => ?_, fun h1 h2 => ?_, fun h1 h2 h3 => ?_, fun h1 h2 h3 h4 => ?_,
          fun h1 h2 h3 h4 h5 => ?_, fun rpa h1 h2 h3 h4 h5 => ?_⟩
  · unfold join
    rw [hroom]
    simp only
    rw [if_pos h1]
  · unfold join
    rw [hroom]
    simp only
    rw [if_neg (by simp [h1]), if_pos h2]
  · unfold join
    rw [hroom]
    simp only
    rw [if_neg (by simp [h1]), if_neg (not_le.mpr h2), if_pos h3]
  · unfold join
    rw [hroom]
    simp only
    rw [if_neg (by simp [h1]), if_neg (not_le.mpr h2), if_neg h3, if_pos h4]
  · unfold join
    rw [hroom]
    simp only
    rw [if_neg (by simp [h1]), if_neg (not_le.mpr h2), if_neg h3, if_neg h4, h5]
  · unfold join
    rw [hroom]
    simp only
    rw [if_neg (by simp [h1]), if_neg (not_le.mpr h2), if_neg h3, if_neg h4, h5]

theorem c4_witness :
    join sOpen "bob" 0 "app" = .ok { sOpen with
      rooms_per_app_account := alInsert sOpen.rooms_per_app_account "app"
        (alInsert [("alice", some 0)] "bob" (some 0)),
      rooms := alInsert sOpen.rooms 0
        { (⟨0, "r", "alice", ["alice"], [], 2, false, false, none⟩ : Room) with
            players := ["alice"] ++ ["bob"] } } :=
  (c4_join_functional_spec sOpen "bob" 0 "app"
      ⟨0, "r", "alice", ["alice"], [], 2, false, false, none⟩ (by decide)).2.2.2.2.2
    [("alice", some 0)] rfl (by decide) (by decide) (by decide) (by decide)

/-- C7 counterexample: after the owner "alice" calls `leave` on their own
open room, the room still exists with `owner_id = "alice"` but the owner is no
longer in `players` — `leave` has no owner guard, refuting "never removed from
players by any operation other than removal of the room itself". -/
theorem c7_counterexample_owner_removed_by_leave :
    ∃ room : Room, alGet sLeaveOnly.rooms 0 = some room ∧
      room.owner_id = "alice" ∧ "alice" ∉ room.players :=
  ⟨⟨0, "r", "alice", [], [], 2, false, false, none⟩, by decide, by decide, by decide⟩

/-- C7 (amended): the owner is a member of `players` immediately after
`create_room` (as its sole player); but the code enforces no owner-membership
invariant afterwards: `leave` called by the owner removes the owner from
`players` (for any room with duplicate-free players), and `kick_and_ban`
called by the owner against themselves removes the owner as well, in both
cases while the room continues to exist. -/
theorem c7_owner_membership :
    (∀ (s : Contract) (c : AccountId) (cfg : RoomConfig) (d : Balance)
        (ba br : StorageUsage) (s1 : Contract) (rid : RoomId),
      create_room s c cfg d ba br = .ok (s1, rid) →
      ∃ room, alGet s1.rooms rid = some room ∧ room.owner_id = c ∧
        c ∈ room.players) ∧
    (∀ (s : Contract) (rid : RoomId) (app : AppName) (room : Room) (s1 : Contract),
      alGet s.rooms rid = some room → room.players.Nodup →
      leave s room.owner_id rid app = .ok s1 →
      ∃ room1, alGet s1.rooms rid = some room1 ∧ room1.owner_id = room.owner_id ∧
        room.owner_id ∉ room1.players) ∧
    (∀ (s : Contract) (rid : RoomId) (room : Room) (s1 : Contract),
      alGet s.rooms rid = some room →
      kick_and_ban s room.owner_id room.owner_id rid = .ok s1 →
      ∃ room1, alGet s1.rooms rid = some room1 ∧
        room.owner_id ∉ room1.players) := by
  refine ⟨?_, ?_, ?_⟩
  · intro s c cfg d ba br s1 rid h
    obtain ⟨hrooms, hrid⟩ := create_room_ok_rooms h
    subst hrid
    refine ⟨createdRoom s c cfg, ?_, rfl, by simp [createdRoom]⟩
    rw [hrooms, alGet_alInsert]
    simp [createdRoom]
  · intro s rid app room s1 hroom hnd h
    rcases leave_ok_shape h with ⟨hsame, hnotmem⟩ | ⟨room1, i, hi, hroom1, hget, hrooms⟩
    · exact ⟨room, by rw [hsame, hroom], rfl, hnotmem room hroom⟩
    · rw [hroom] at hroom1
      cases hroom1
      refine ⟨{ room with players := swapRemove room.players i }, ?_, rfl, ?_⟩
      · rw [hrooms, alGet_alInsert]
        simp
      · exact hget ▸ not_mem_swapRemove room.players i hnd hi
  · intro s rid room s1 hroom h
    obtain ⟨room1, hroom1, hrooms⟩ := kick_and_ban_ok_shape h
    rw [hroom] at hroom1
    cases hroom1
    refine ⟨{ room with
        players := room.players.filter (· ≠ room.owner_id),
        banned_players := room.banned_players ++ [room.owner_id] }, ?_, ?_⟩
    · rw [hrooms, alGet_alInsert]
      simp
    · intro hc
      have hmf := List.of_mem_filter hc
      simp at hmf

theorem c7_witness :
    ∃ room, alGet sOpen.rooms 0 = some room ∧ room.owner_id = "alice" ∧
      "alice" ∈ room.players :=
  c7_owner_membership.1 initialContract "alice" demoCfg MIN_STORAGE_BALANCE 300 0
    sOpen 0 (by decide)

/-- C8 counterexample: "bob" is not a member of the existing, open room 0 of
`sOpen` (whose app index exists), and `leave` returns plain success with the
state unchanged — there is no `NotAMember` failure. -/
theorem c8_counterexample_leave_nonmember_succeeds :
    (∃ room : Room, alGet sOpen.rooms 0 = some room ∧ room.is_closed = false ∧
      "bob" ∉ room.players) ∧
    leave sOpen "bob" 0 "app" = .ok sOpen :=
  ⟨⟨⟨0, "r", "alice", ["alice"], [], 2, false, false, none⟩,
    by decide, by decide, by decide⟩, by decide⟩

/-- C8 (amended): `leave` called by a non-member of an existing, non-closed
room whose app index exists is a silent no-op: the member search loop falls
through and the call returns success with the state unchanged, instead of
failing with `NotAMember`. -/
theorem c8_leave_nonmember_silent_noop (s : Contract) (c : AccountId) (rid : RoomId)
    (app : AppName) (room : Room) (rpa : AList AccountId (Option RoomId))
    (hroom : alGet s.rooms rid = some room) (hopen : room.is_closed = false)
    (happ : alGet s.rooms_per_app_account app = some rpa) (hmem : c ∉ room.players) :
    leave s c rid app = .ok s := by
  unfold leave
  rw [hroom]
  simp only
  rw [if_neg (by simp [hopen]), happ]
  simp only
  rw [(findFirstIdx_eq_none c room.players).mpr hmem]

theorem c8_witness : leave sOpen "bob" 0 "app" = .ok sOpen :=
  c8_leave_nonmember_silent_noop sOpen "bob" 0 "app"
    ⟨0, "r", "alice", ["alice"], [], 2, false, false, none⟩ [("alice", some 0)]
    (by decide) rfl (by decide) (by decide)

/-- C9 counterexample: room 0 of `sOpen` is already open and its owner
"alice" calls `open`; the call returns success (here even the identical
state), not an `InvalidState` failure — `open` contains no already-open
check. -/
theorem c9_counterexample_reopen_open_succeeds :
    (∃ room : Room, alGet sOpen.rooms 0 = some room ∧ room.owner_id = "alice" ∧
      room.is_closed = false) ∧
    open_room sOpen "alice" 0 "app" = .ok sOpen :=
  ⟨⟨⟨0, "r", "alice", ["alice"], [], 2, false, false, none⟩,
    by decide, by decide, by decide⟩, by decide⟩

/-- C9 (amended): `open` called by the owner on an already-open room (with the
app's available set present) succeeds silently: every rooms-map entry is
unchanged (`is_closed` is rewritten to `false`, its existing value), the room
id is re-inserted into `available_rooms[app]` (a no-op when already present),
and the other state components are untouched; no `InvalidState` error
exists in `open`. -/
theorem c9_reopen_silent_success (s : Contract) (c : AccountId) (rid : RoomId)
    (app : AppName) (room : Room) (avail : List RoomId)
    (hroom : alGet s.rooms rid = some room) (hown : room.owner_id = c)
    (hopen : room.is_closed = false)
    (havail : alGet s.available_rooms_per_app app = some avail) :
    ∃ s1, open_room s c rid app = .ok s1 ∧
      (∀ id, alGet s1.rooms id = alGet s.rooms id) ∧
      alGet s1.available_rooms_per_app app = some (setInsert avail rid) ∧
      s1.rooms_per_app_account = s.rooms_per_app_account ∧
      s1.accounts = s.accounts ∧ s1.next_room_id = s.next_room_id := by
  have heta : { room with is_closed := false } = room := by rw [← hopen]
  have hownne : ¬(room.owner_id ≠ c) := fun hc => hc hown
  refine ⟨{ s with
      rooms := alInsert s.rooms rid { room with is_closed := false },
      available_rooms_per_app := alInsert s.available_rooms_per_app app (setInsert avail rid) },
    ?_, ?_, ?_, rfl, rfl, rfl⟩
  · unfold open_room
    rw [hroom]
    simp only
    rw [if_neg hownne, havail]
  · intro id
    show alGet (alInsert s.rooms rid { room with is_closed := false }) id =
      alGet s.rooms id
    rw [alGet_alInsert]
    split_ifs with he
    · subst he
      rw [heta, hroom]
    · rfl
  · show alGet (alInsert s.available_rooms_per_app app (setInsert avail rid)) app =
      some (setInsert avail rid)
    rw [alGet_alInsert]
    simp

theorem c9_witness :
    ∃ s1, open_room sOpen "alice" 0 "app" = .ok s1 ∧
      (∀ id, alGet s1.rooms id = alGet sOpen.rooms id) ∧
      alGet s1.available_rooms_per_app "app" = some (setInsert [0] 0) ∧
      s1.rooms_per_app_account = sOpen.rooms_per_app_account ∧
      s1.accounts = sOpen.accounts ∧ s1.next_room_id = sOpen.next_room_id :=
  c9_reopen_silent_success sOpen "alice" 0 "app"
    ⟨0, "r", "alice", ["alice"], [], 2, false, false, none⟩ [0]
    (by decide) rfl rfl (by decide)

end RoomContract
